import Mathlib

/-!
Shallow embedding of the ROM parsing module (`src/rom/mod.rs`) of the
`oxide64` repository.

Bytes are modelled as `Nat` (values < 256 in practice; no arithmetic here
ever wraps, the code only moves bytes around and assembles big-endian
integers).  Rust `Vec<u8>` becomes `List Nat`.  A Rust panic (index out of
bounds, failed `unwrap`, `split_off` out of range) is modelled explicitly:
slicing returns `Option`, the parse entry point returns a dedicated
`crash` outcome.
-/

namespace Oxide64

/-- `const HEADER_SIZE: usize = 0x1000`. -/
def HEADER_SIZE : Nat := 0x1000

/-- `const HEADER_NATIVE: [u8; 4] = [0x80, 0x37, 0x12, 0x40]`. -/
def HEADER_NATIVE : List Nat := [0x80, 0x37, 0x12, 0x40]

/-- `const HEADER_BYTE_SWAPPED: [u8; 4] = [0x37, 0x80, 0x40, 0x12]`. -/
def HEADER_BYTE_SWAPPED : List Nat := [0x37, 0x80, 0x40, 0x12]

/-- `const HEADER_LITTLE_ENDIAN: [u8; 4] = [0x40, 0x12, 0x37, 0x80]`. -/
def HEADER_LITTLE_ENDIAN : List Nat := [0x40, 0x12, 0x37, 0x80]

/-- `enum Endian { Little, Native, ByteSwapped }`. -/
inductive Endian
  | Little
  | Native
  | ByteSwapped
deriving DecidableEq

/-- `Endian::from_u8`: compares `val` against the leading byte of each of
the three magic constants (`HEADER_NATIVE[0] = 0x80`,
`HEADER_BYTE_SWAPPED[0] = 0x37`, `HEADER_LITTLE_ENDIAN[0] = 0x40`),
in that order. -/
def Endian.from_u8 (val : Nat) : Option Endian :=
  if val = 0x80 then some .Native
  else if val = 0x37 then some .ByteSwapped
  else if val = 0x40 then some .Little
  else none

/-- `struct InternalHeader { data: Vec<u8> }`. -/
structure InternalHeader where
  data : List Nat
deriving DecidableEq

/-- `struct ROM { header: InternalHeader, data: Vec<u8> }`. -/
structure ROM where
  header : InternalHeader
  data : List Nat
deriving DecidableEq

/-- `InternalHeader::new`: fails (with the offending actual length, which
the Rust code formats into the error message) unless
`data.len() == HEADER_SIZE`. -/
def InternalHeader.new (data : List Nat) : Except Nat InternalHeader :=
  if data.length ≠ HEADER_SIZE then .error data.length
  else .ok ⟨data⟩

/-- Rust slice indexing `&data[a..b]`: yields the bytes at positions
`[a, b)`; out-of-range bounds (`b > data.len()` or `a > b`) panic, which
is modelled as `none`. -/
def slice (data : List Nat) (a b : Nat) : Option (List Nat) :=
  if a ≤ b ∧ b ≤ data.length then some ((data.take b).drop a) else none

/-- Big-endian value of a byte list: the first byte is the most
significant. -/
def beVal : List Nat → Nat
  | [] => 0
  | b :: rest => b * 256 ^ rest.length + beVal rest

/-- `fn read_u32<T: ReadBytesExt>(mut data: T) -> u32`: reads exactly 4
bytes as a big-endian u32 and `unwrap`s; with fewer than 4 bytes
available the read fails with `UnexpectedEof` and the `unwrap` panics
(`none`). -/
def read_u32 (data : List Nat) : Option Nat :=
  if 4 ≤ data.length then some (beVal (data.take 4)) else none

/-- `fn read_u64<T: ReadBytesExt>(mut data: T) -> u64`: reads exactly 8
bytes as a big-endian u64 and `unwrap`s; with fewer than 8 bytes
available the read fails with `UnexpectedEof` and the `unwrap` panics
(`none`). -/
def read_u64 (data : List Nat) : Option Nat :=
  if 8 ≤ data.length then some (beVal (data.take 8)) else none

/-- `self.data[0]`. -/
def InternalHeader.pi_bsb_dom1_lat_reg (h : InternalHeader) : Option Nat :=
  h.data[0]?

/-- `self.data[1]`. -/
def InternalHeader.pi_bsd_dom1_pgs_reg (h : InternalHeader) : Option Nat :=
  h.data[1]?

/-- `self.data[2]`. -/
def InternalHeader.pi_bsd_dom1_pwd_reg (h : InternalHeader) : Option Nat :=
  h.data[2]?

/-- `self.data[3]`. -/
def InternalHeader.pi_bsb_dom1_pgs_reg (h : InternalHeader) : Option Nat :=
  h.data[3]?

/-- `clock_rate`: `read_u64(&self.data[0x4..0x8])`. -/
def InternalHeader.clock_rate (h : InternalHeader) : Option Nat :=
  slice h.data 0x4 0x8 >>= read_u64

/-- `pc`: `read_u64(&self.data[0x8..0xC])`. -/
def InternalHeader.pc (h : InternalHeader) : Option Nat :=
  slice h.data 0x8 0xC >>= read_u64

/-- `release`: `read_u64(&self.data[0x8..0xC])` (the same range as `pc`,
as written in the source). -/
def InternalHeader.release (h : InternalHeader) : Option Nat :=
  slice h.data 0x8 0xC >>= read_u64

/-- `crc1`: `read_u64(&self.data[0x10..0x14])`. -/
def InternalHeader.crc1 (h : InternalHeader) : Option Nat :=
  slice h.data 0x10 0x14 >>= read_u64

/-- `crc2`: `read_u64(&self.data[0x14..0x18])`. -/
def InternalHeader.crc2 (h : InternalHeader) : Option Nat :=
  slice h.data 0x14 0x18 >>= read_u64

/-- `unknown_1`: the pair `[read_u64(&self.data[0x18..0x1C]),
read_u64(&self.data[0x1C..0x20])]`. -/
def InternalHeader.unknown_1 (h : InternalHeader) : Option Nat × Option Nat :=
  (slice h.data 0x18 0x1C >>= read_u64, slice h.data 0x1C 0x20 >>= read_u64)

/-- `image_name`: `&self.data[0x20..0x33]`. -/
def InternalHeader.image_name (h : InternalHeader) : Option (List Nat) :=
  slice h.data 0x20 0x33

/-- `unknown_2`: `read_u64(&self.data[0x34..0x38])`. -/
def InternalHeader.unknown_2 (h : InternalHeader) : Option Nat :=
  slice h.data 0x34 0x38 >>= read_u64

/-- `manufactorer_id`: `read_u64(&self.data[0x38..0x3C])`. -/
def InternalHeader.manufactorer_id (h : InternalHeader) : Option Nat :=
  slice h.data 0x38 0x3C >>= read_u64

/-- `cartridge_id`: `read_u32(&self.data[0x3C..0x3E])`. -/
def InternalHeader.cartridge_id (h : InternalHeader) : Option Nat :=
  slice h.data 0x3C 0x3E >>= read_u32

/-- `country_code`: `read_u32(&self.data[0x3E..0x40])`. -/
def InternalHeader.country_code (h : InternalHeader) : Option Nat :=
  slice h.data 0x3E 0x40 >>= read_u32

/-- `boot_code`: `&self.data[0x40..0x1000]`. -/
def InternalHeader.boot_code (h : InternalHeader) : Option (List Nat) :=
  slice h.data 0x40 0x1000

/-- The byte-swapping loop of `parse`
(`while i < data.len() { data.swap(i, i + 1); i += 2 }`): swaps the bytes
of each adjacent pair.  On an odd-length buffer the final iteration runs
`data.swap(len - 1, len)`, an out-of-bounds access, so the loop panics
(`none`). -/
def swapPairs : List Nat → Option (List Nat)
  | [] => some []
  | [_] => none
  | a :: b :: rest => (swapPairs rest).map fun r => b :: a :: r

/-- The normalization step of `parse`, dispatching on the classified
endianness: `Native` leaves the buffer alone, `ByteSwapped` runs the
byte-swapping loop, `Little` runs `data.reverse()`. -/
def normalize (e : Endian) (data : List Nat) : Option (List Nat) :=
  match e with
  | .Native => some data
  | .ByteSwapped => swapPairs data
  | .Little => some data.reverse

/-- Outcome of `pub fn parse(data: Vec<u8>) -> Result<ROM>`.  The two
`Err` returns of the source are distinguished by the argument of the
error they format (`unknown header: data[0]` and `invalid header size:
actual != 0x1000`); `crash` models a Rust panic. -/
inductive ParseOutcome
  | ok (rom : ROM)
  | unknownMagic (b : Nat)
  | invalidHeaderSize (n : Nat)
  | crash
deriving DecidableEq

/-- `pub fn parse(data: Vec<u8>) -> Result<ROM>`:
reads `data[0]` (panics on an empty buffer), classifies via
`Endian::from_u8` (returning the unknown-header error on `None`),
normalizes the buffer in place, then runs `data.split_off(HEADER_SIZE)`
(which panics when `HEADER_SIZE > data.len()`) and hands the first
`HEADER_SIZE` bytes to `InternalHeader::new`, propagating its error. -/
def parse (data : List Nat) : ParseOutcome :=
  match data[0]? with
  | none => .crash
  | some b0 =>
    match Endian.from_u8 b0 with
    | none => .unknownMagic b0
    | some e =>
      match normalize e data with
      | none => .crash
      | some d =>
        if HEADER_SIZE ≤ d.length then
          match InternalHeader.new (d.take HEADER_SIZE) with
          | .error n => .invalidHeaderSize n
          | .ok h => .ok ⟨h, d.drop HEADER_SIZE⟩
        else .crash

section Lemmas

theorem swapPairs_length : ∀ (l l' : List Nat), swapPairs l = some l' → l'.length = l.length
  | [], l', h => by
    simp [swapPairs] at h
    subst h
    rfl
  | [a], l', h => by
    simp [swapPairs] at h
  | a :: b :: rest, l', h => by
    simp only [swapPairs, Option.map_eq_some'] at h
    obtain ⟨r, hr, hl⟩ := h
    subst hl
    simp [swapPairs_length rest r hr]

theorem swapPairs_involutive : ∀ (l l' : List Nat), swapPairs l = some l' → swapPairs l' = some l
  | [], l', h => by
    simp [swapPairs] at h
    subst h
    rfl
  | [a], l', h => by
    simp [swapPairs] at h
  | a :: b :: rest, l', h => by
    simp only [swapPairs, Option.map_eq_some'] at h
    obtain ⟨r, hr, hl⟩ := h
    subst hl
    simp [swapPairs, swapPairs_involutive rest r hr]

theorem swapPairs_none_of_odd : ∀ (l : List Nat), l.length % 2 = 1 → swapPairs l = none
  | [], h => by simp at h
  | [a], _ => by simp [swapPairs]
  | a :: b :: rest, h => by
    have hr : rest.length % 2 = 1 := by
      simp only [List.length_cons] at h
      omega
    simp [swapPairs, swapPairs_none_of_odd rest hr]

theorem swapPairs_replicate (n c : Nat) :
    swapPairs (List.replicate (2 * n) c) = some (List.replicate (2 * n) c) := by
  induction n with
  | zero => simp [swapPairs]
  | succ k ih =>
    have h2 : 2 * (k + 1) = (2 * k) + 1 + 1 := by omega
    rw [h2, List.replicate_succ, List.replicate_succ]
    simp [swapPairs, ih]

theorem normalize_length (e : Endian) (data d : List Nat) (h : normalize e data = some d) :
    d.length = data.length := by
  cases e with
  | Native =>
    simp [normalize] at h
    subst h
    rfl
  | ByteSwapped => exact swapPairs_length data d h
  | Little =>
    simp [normalize] at h
    subst h
    simp

theorem new_ok_of_length (data : List Nat) (h : data.length = HEADER_SIZE) :
    InternalHeader.new data = .ok ⟨data⟩ := by
  simp [InternalHeader.new, h]

theorem parse_native (data : List Nat) (h0 : data[0]? = some 0x80)
    (hlen : HEADER_SIZE ≤ data.length) :
    parse data = .ok ⟨⟨data.take HEADER_SIZE⟩, data.drop HEADER_SIZE⟩ := by
  have hnew : InternalHeader.new (data.take HEADER_SIZE) = .ok ⟨data.take HEADER_SIZE⟩ :=
    new_ok_of_length _ (by simp [List.length_take]; omega)
  simp [parse, h0, Endian.from_u8, normalize, hlen, hnew]

theorem parse_byteswapped (data d : List Nat) (h0 : data[0]? = some 0x37)
    (hsw : swapPairs data = some d) (hlen : HEADER_SIZE ≤ data.length) :
    parse data = .ok ⟨⟨d.take HEADER_SIZE⟩, d.drop HEADER_SIZE⟩ := by
  have hdl : d.length = data.length := swapPairs_length data d hsw
  have hnew : InternalHeader.new (d.take HEADER_SIZE) = .ok ⟨d.take HEADER_SIZE⟩ :=
    new_ok_of_length _ (by simp [List.length_take]; omega)
  simp [parse, h0, Endian.from_u8, normalize, hsw, hdl, hlen, hnew]

theorem parse_little (data : List Nat) (h0 : data[0]? = some 0x40)
    (hlen : HEADER_SIZE ≤ data.length) :
    parse data = .ok ⟨⟨data.reverse.take HEADER_SIZE⟩, data.reverse.drop HEADER_SIZE⟩ := by
  have hnew :
      InternalHeader.new (data.reverse.take HEADER_SIZE) = .ok ⟨data.reverse.take HEADER_SIZE⟩ :=
    new_ok_of_length _ (by simp [List.length_take]; omega)
  simp [parse, h0, Endian.from_u8, normalize, hlen, hnew]

theorem parse_ok_inv (data : List Nat) (rom : ROM) (h : parse data = .ok rom) :
    ∃ b e d, data[0]? = some b ∧ Endian.from_u8 b = some e ∧ normalize e data = some d ∧
      HEADER_SIZE ≤ d.length ∧ rom = ⟨⟨d.take HEADER_SIZE⟩, d.drop HEADER_SIZE⟩ := by
  unfold parse at h
  split at h
  · exact absurd h (by simp)
  next b hb =>
    split at h
    next => exact absurd h (by simp)
    next e he =>
      split at h
      next => exact absurd h (by simp)
      next d hd =>
        split at h
        next hlen =>
          have hnew : InternalHeader.new (d.take HEADER_SIZE) = .ok ⟨d.take HEADER_SIZE⟩ :=
            new_ok_of_length _ (by simp [List.length_take]; omega)
          rw [hnew] at h
          simp at h
          exact ⟨b, e, d, hb, he, hd, hlen, h.symm⟩
        next => exact absurd h (by simp)

end Lemmas

/-- A slice of fewer than 8 bytes fed to `read_u64` always fails: the
8-byte big-endian read hits end-of-input and the `unwrap` panics. -/
theorem slice_read_u64_none (data : List Nat) (a b : Nat) (hw : b - a < 8) :
    (slice data a b >>= read_u64) = none := by
  unfold slice
  split
  next hab =>
    have h8 : ¬ (8 ≤ ((data.take b).drop a).length) := by
      simp only [List.length_drop, List.length_take]
      rw [min_eq_left hab.2]
      omega
    show read_u64 ((data.take b).drop a) = none
    unfold read_u64
    exact if_neg h8
  next => rfl

/-- The 4096-byte header of the spec's field-extraction example:
`[0x80,0x37,0x12,0x40, 0x00,0x00,0x00,0x0F, 0x80,0x00,0x10,0x00, ...]`,
padded with zero bytes. -/
def c1header : List Nat :=
  [0x80, 0x37, 0x12, 0x40, 0x00, 0x00, 0x00, 0x0F, 0x80, 0x00, 0x10, 0x00] ++
    List.replicate 4084 0

/-- C1: on the spec's example header the construction succeeds, but
`clock_rate()`, `pc()` and `release()` all panic instead of returning
`0x0000000F` / `0x80001000`: each passes a 4-byte slice to `read_u64`,
which reads 8 big-endian bytes and `unwrap`s the resulting
`UnexpectedEof`. -/
theorem c1_u64_accessors_crash_on_example_header :
    InternalHeader.new c1header = .ok ⟨c1header⟩ ∧
    InternalHeader.clock_rate ⟨c1header⟩ = none ∧
    InternalHeader.pc ⟨c1header⟩ = none ∧
    InternalHeader.release ⟨c1header⟩ = none := by
  have hlen : c1header.length = HEADER_SIZE := by
    simp only [c1header, List.length_append, List.length_replicate, List.length_cons,
      List.length_nil, HEADER_SIZE]
  exact ⟨new_ok_of_length _ hlen,
    slice_read_u64_none c1header 0x4 0x8 (by norm_num),
    slice_read_u64_none c1header 0x8 0xC (by norm_num),
    slice_read_u64_none c1header 0x8 0xC (by norm_num)⟩

/-- C2 counterexample: on the 1-byte buffer `[0x80]` (valid magic, length
below 4096) `parse` panics at `data.split_off(HEADER_SIZE)` instead of
returning the invalid-header-size error. -/
theorem c2_counterexample_short_input_panics :
    parse [0x80] = ParseOutcome.crash := by decide

/-- C2 (amended): for every buffer of length in `[1, 4096)` whose first
byte is `0x80`, `0x37` or `0x40`, `parse` panics (at the out-of-range
`split_off`, or already in the swap loop for odd-length byte-swapped
input); it never returns the invalid-header-size error. -/
theorem c2_amended_short_valid_magic_panics (data : List Nat) (b : Nat)
    (h0 : data[0]? = some b) (hb : b = 0x80 ∨ b = 0x37 ∨ b = 0x40)
    (hlen : data.length < HEADER_SIZE) :
    parse data = ParseOutcome.crash := by
  obtain ⟨e, he⟩ : ∃ e, Endian.from_u8 b = some e := by
    rcases hb with rfl | rfl | rfl <;> exact ⟨_, rfl⟩
  cases hd : normalize e data with
  | none => simp [parse, h0, he, hd]
  | some d =>
    have hne : ¬ (HEADER_SIZE ≤ d.length) := by
      have := normalize_length e data d hd
      omega
    simp [parse, h0, he, hd, hne]

/-- Witness for C2 (amended) at the concrete input `[0x37, 0x00]`. -/
theorem c2_amended_witness : parse [0x37, 0x00] = ParseOutcome.crash :=
  c2_amended_short_valid_magic_panics [0x37, 0x00] 0x37 (by decide)
    (Or.inr (Or.inl rfl)) (by decide)

/-- C3 counterexample: on the odd-length buffer `[0x37, 0x00, 0x00]` the
byte-swapping loop panics (`data.swap(2, 3)` is out of bounds), so the
normalization step of `parse` does fail. -/
theorem c3_counterexample_odd_swap_panics :
    swapPairs [0x37, 0x00, 0x00] = none ∧
    parse [0x37, 0x00, 0x00] = ParseOutcome.crash := by decide

/-- C3 (amended): for every buffer of odd length the byte-swapping loop
panics — its final iteration runs `swap(len - 1, len)`, an out-of-bounds
access — so for any odd-length buffer whose first byte is `0x37`,
`parse` crashes during normalization; the final unpaired byte is not
left untouched. -/
theorem c3_amended_odd_byteswapped_panics (data : List Nat)
    (hodd : data.length % 2 = 1) :
    swapPairs data = none ∧
    (data[0]? = some 0x37 → parse data = ParseOutcome.crash) := by
  have hsw := swapPairs_none_of_odd data hodd
  refine ⟨hsw, fun h0 => ?_⟩
  simp [parse, h0, Endian.from_u8, normalize, hsw]

/-- Witness for C3 (amended) at the concrete input `[0x37, 0, 0, 0, 0]`. -/
theorem c3_amended_witness :
    swapPairs [0x37, 0x00, 0x00, 0x00, 0x00] = none ∧
    parse [0x37, 0x00, 0x00, 0x00, 0x00] = ParseOutcome.crash := by
  have h := c3_amended_odd_byteswapped_panics [0x37, 0x00, 0x00, 0x00, 0x00] (by decide)
  exact ⟨h.1, h.2 (by decide)⟩

/-- C10: `parse` reads `data[0]` before any length check, so on the empty
buffer it panics by out-of-bounds indexing; in particular it does not
return the unknown-magic error there. -/
theorem c10_parse_empty_panics :
    parse [] = ParseOutcome.crash ∧
    ∀ b : Nat, parse [] ≠ ParseOutcome.unknownMagic b :=
  ⟨rfl, fun _ h => ParseOutcome.noConfusion h⟩

/-- Inversion for `InternalHeader::new`: a successful construction owns
exactly the input bytes, whose length is `HEADER_SIZE`. -/
theorem new_ok_inv (data : List Nat) (h : InternalHeader)
    (hok : InternalHeader.new data = .ok h) :
    h.data = data ∧ data.length = HEADER_SIZE := by
  unfold InternalHeader.new at hok
  split at hok
  · exact absurd hok (by simp)
  next hlen =>
    simp only [Except.ok.injEq] at hok
    subst hok
    exact ⟨rfl, by omega⟩

/-- C5: `InternalHeader::new` succeeds exactly on inputs of length 4096,
returns the invalid-size error (carrying the actual length) on every
other length, and a successfully constructed header owns exactly the
input bytes, of length 4096.  (Immutability afterwards is structural in
the embedding: every accessor is a pure function of the header.) -/
theorem c5_new_size_invariant (data : List Nat) :
    (data.length = HEADER_SIZE → InternalHeader.new data = .ok ⟨data⟩) ∧
    (data.length ≠ HEADER_SIZE → InternalHeader.new data = .error data.length) ∧
    ∀ h : InternalHeader, InternalHeader.new data = .ok h →
      h.data = data ∧ h.data.length = HEADER_SIZE := by
  refine ⟨fun h => new_ok_of_length data h,
    fun h => by simp [InternalHeader.new, h], fun h hok => ?_⟩
  obtain ⟨h1, h2⟩ := new_ok_inv data h hok
  exact ⟨h1, by rw [h1]; exact h2⟩

/-- Witness for C5 at lengths 4096, 0, 4095 and 4097. -/
theorem c5_witness :
    InternalHeader.new (List.replicate 4096 0) = .ok ⟨List.replicate 4096 0⟩ ∧
    InternalHeader.new [] = .error 0 ∧
    InternalHeader.new (List.replicate 4095 0) = .error 4095 ∧
    InternalHeader.new (List.replicate 4097 0) = .error 4097 := by
  refine ⟨(c5_new_size_invariant _).1 (by rw [List.length_replicate]; rfl), ?_, ?_, ?_⟩
  · exact (c5_new_size_invariant []).2.1 (by decide)
  · have h := (c5_new_size_invariant (List.replicate 4095 0)).2.1
      (by rw [List.length_replicate]; decide)
    rw [List.length_replicate] at h
    exact h
  · have h := (c5_new_size_invariant (List.replicate 4097 0)).2.1
      (by rw [List.length_replicate]; decide)
    rw [List.length_replicate] at h
    exact h

/-- C6: a buffer whose first byte is none of `0x80`, `0x37`, `0x40` makes
`parse` fail with the unknown-header error carrying that byte; and
classification looks only at byte 0 — with any of the three magic bytes
first, `Endian::from_u8` succeeds and `parse` never reports an unknown
header, whatever the remaining bytes are. -/
theorem c6_magic_classification (b : Nat) (rest : List Nat) :
    (¬(b = 0x80 ∨ b = 0x37 ∨ b = 0x40) →
      parse (b :: rest) = ParseOutcome.unknownMagic b) ∧
    ((b = 0x80 ∨ b = 0x37 ∨ b = 0x40) →
      Endian.from_u8 b ≠ none ∧
      ∀ c, parse (b :: rest) ≠ ParseOutcome.unknownMagic c) := by
  constructor
  · intro hb
    push_neg at hb
    obtain ⟨h1, h2, h3⟩ := hb
    simp [parse, Endian.from_u8, h1, h2, h3]
  · intro hb
    obtain ⟨e, he⟩ : ∃ e, Endian.from_u8 b = some e := by
      rcases hb with rfl | rfl | rfl <;> exact ⟨_, rfl⟩
    refine ⟨by simp [he], fun c => ?_⟩
    cases hd : normalize e (b :: rest) with
    | none => simp [parse, he, hd]
    | some d =>
      by_cases hlen : HEADER_SIZE ≤ d.length
      · have hnew := new_ok_of_length (d.take HEADER_SIZE)
          (by simp only [List.length_take]; exact min_eq_left hlen)
        simp [parse, he, hd, hlen, hnew]
      · simp [parse, he, hd, hlen]

/-- Witness for C6: the bad byte `0x12` is rejected with the
unknown-header error, and the good byte `0x37` passes classification on
a 2-byte buffer whose other byte matches no magic. -/
theorem c6_witness :
    parse [0x12] = ParseOutcome.unknownMagic 0x12 ∧
    ∀ c, parse [0x37, 0xFF] ≠ ParseOutcome.unknownMagic c :=
  ⟨(c6_magic_classification 0x12 []).1 (by decide),
   ((c6_magic_classification 0x37 [0xFF]).2 (Or.inr (Or.inl rfl))).2⟩

/-- C8: every successfully constructed header yields a boot code of
exactly the 4032 bytes at offsets `[0x40, 0x1000)` of its buffer; the
body plays no part (`boot_code` reads only the header's own 4096
bytes). -/
theorem c8_boot_code_length (data : List Nat) (h : InternalHeader)
    (hok : InternalHeader.new data = .ok h) :
    h.boot_code = some ((data.take 0x1000).drop 0x40) ∧
    ((data.take 0x1000).drop 0x40).length = 4032 := by
  obtain ⟨hdata, hlen⟩ := new_ok_inv data h hok
  constructor
  · show slice h.data 0x40 0x1000 = _
    rw [hdata]
    unfold slice
    rw [if_pos ⟨by norm_num, by rw [hlen]; rfl⟩]
  · simp only [List.length_drop, List.length_take]
    rw [hlen]
    decide

/-- Witness for C8: the all-zero header's boot code is the 4032-byte
all-zero slice. -/
theorem c8_witness :
    InternalHeader.boot_code ⟨List.replicate 4096 0⟩ = some (List.replicate 4032 0) := by
  have h := c8_boot_code_length (List.replicate 4096 0) ⟨List.replicate 4096 0⟩
    (new_ok_of_length _ (by rw [List.length_replicate]; rfl))
  rw [h.1, List.take_replicate, List.drop_replicate, min_self]

/-- C9: `release()` and `pc()` read the very same byte range
`[0x08, 0x0C)` of the header buffer, so on every header they produce
the same result. -/
theorem c9_release_aliases_pc (h : InternalHeader) : h.release = h.pc := rfl

/-- Unfolding equation for the cons-cons case of the swap loop. -/
theorem swapPairs_cons_cons (a b : Nat) (rest : List Nat) :
    swapPairs (a :: b :: rest) = (swapPairs rest).map fun r => b :: a :: r := rfl

/-- C7: whenever `parse` succeeds, the result is an exact split of the
normalized input: the header owns the first 4096 normalized bytes and
the body is the normalized tail, of length `input length - 4096`. -/
theorem c7_body_passthrough (data : List Nat) (rom : ROM)
    (h : parse data = .ok rom) :
    ∃ b e d, data[0]? = some b ∧ Endian.from_u8 b = some e ∧
      normalize e data = some d ∧ d.length = data.length ∧
      rom.header.data = d.take HEADER_SIZE ∧ rom.data = d.drop HEADER_SIZE ∧
      rom.header.data.length = HEADER_SIZE ∧
      rom.data.length + HEADER_SIZE = data.length := by
  obtain ⟨b, e, d, hb, he, hd, hlen, hrom⟩ := parse_ok_inv data rom h
  subst hrom
  have hdl := normalize_length e data d hd
  refine ⟨b, e, d, hb, he, hd, hdl, rfl, rfl, ?_, ?_⟩
  · simp only [List.length_take]
    exact min_eq_left hlen
  · simp only [List.length_drop]
    omega

/-- Input for the C7 witness: a native image of length 4097 = 4096 + 1. -/
def c7data : List Nat := 0x80 :: List.replicate 4096 0

/-- Parse result of `c7data`: the header takes the first 4096 bytes, the
body is the single remaining zero byte. -/
def c7rom : ROM := ⟨⟨0x80 :: List.replicate 4095 0⟩, [0]⟩

/-- Witness for C7 at `c7data` (total length 4096 + 1): the body has
length 1 and the header length 4096. -/
theorem c7_witness :
    parse c7data = ParseOutcome.ok c7rom ∧
    c7rom.data.length + HEADER_SIZE = c7data.length ∧
    c7rom.header.data.length = HEADER_SIZE := by
  have hlen : HEADER_SIZE ≤ c7data.length := by
    show HEADER_SIZE ≤ (0x80 :: List.replicate 4096 0).length
    simp only [List.length_cons, List.length_replicate]
    decide
  have hp : parse c7data = ParseOutcome.ok c7rom := by
    have h := parse_native c7data (by simp [c7data, -List.reduceReplicate]) hlen
    rw [h]
    have ht : c7data.take HEADER_SIZE = 0x80 :: List.replicate 4095 0 := by
      show (0x80 :: List.replicate 4096 0).take (4095 + 1) = _
      rw [List.take_succ_cons, List.take_replicate, min_eq_left (by norm_num)]
    have hdp : c7data.drop HEADER_SIZE = [0] := by
      show (0x80 :: List.replicate 4096 0).drop (4095 + 1) = _
      rw [List.drop_succ_cons, List.drop_replicate]
      norm_num
    rw [ht, hdp]
    rfl
  obtain ⟨b, e, d, _, _, _, _, _, _, hhl, hbl⟩ := c7_body_passthrough c7data c7rom hp
  exact ⟨hp, hbl, hhl⟩

/-- A native-magic image of full header length whose second byte is not
`0x37` and whose last byte is not `0x40`: a counterexample to the
unconditional round-trip property. -/
def c4bad : List Nat := 0x80 :: 0x80 :: 0x12 :: 0x40 :: List.replicate 4092 0

/-- The pairwise byte swap of `c4bad`. -/
def c4badS : List Nat := 0x80 :: 0x80 :: 0x40 :: 0x12 :: List.replicate 4092 0

/-- C4 counterexample: `c4bad` starts with `0x80` and has length 4096, and
`parse` accepts it; yet parsing its pairwise byte swap classifies as
native (no re-swap) and yields a different value for the byte-2 header
field, and parsing its full reversal fails with the unknown-header
error.  The claim's round-trip equivalence is false as stated. -/
theorem c4_counterexample_roundtrip_fails :
    swapPairs c4bad = some c4badS ∧
    parse c4bad = ParseOutcome.ok ⟨⟨c4bad⟩, []⟩ ∧
    parse c4badS = ParseOutcome.ok ⟨⟨c4badS⟩, []⟩ ∧
    InternalHeader.pi_bsd_dom1_pwd_reg ⟨c4bad⟩ = some 0x12 ∧
    InternalHeader.pi_bsd_dom1_pwd_reg ⟨c4badS⟩ = some 0x40 ∧
    parse c4bad.reverse = ParseOutcome.unknownMagic 0x00 := by
  have key : swapPairs (List.replicate 4092 (0:Nat)) = some (List.replicate 4092 0) := by
    have h := swapPairs_replicate 2046 (0:Nat)
    rw [show (2 * 2046 : Nat) = 4092 from rfl] at h
    exact h
  have hlb : c4bad.length = HEADER_SIZE := by
    simp only [c4bad, List.length_cons, List.length_replicate]
    rfl
  have hlbS : c4badS.length = HEADER_SIZE := by
    simp only [c4badS, List.length_cons, List.length_replicate]
    rfl
  refine ⟨?_, ?_, ?_, by simp [InternalHeader.pi_bsd_dom1_pwd_reg, c4bad, -List.reduceReplicate], by simp [InternalHeader.pi_bsd_dom1_pwd_reg, c4badS, -List.reduceReplicate], ?_⟩
  · show swapPairs (0x80 :: 0x80 :: 0x12 :: 0x40 :: List.replicate 4092 0) =
      some (0x80 :: 0x80 :: 0x40 :: 0x12 :: List.replicate 4092 0)
    rw [swapPairs_cons_cons, swapPairs_cons_cons, key]
    rfl
  · have h := parse_native c4bad (by simp [c4bad, -List.reduceReplicate]) (le_of_eq hlb.symm)
    rw [h, List.take_of_length_le (le_of_eq hlb), List.drop_eq_nil_of_le (le_of_eq hlb)]
  · have h := parse_native c4badS (by simp [c4badS, -List.reduceReplicate]) (le_of_eq hlbS.symm)
    rw [h, List.take_of_length_le (le_of_eq hlbS), List.drop_eq_nil_of_le (le_of_eq hlbS)]
  · have hsplit : c4bad = (0x80 :: 0x80 :: 0x12 :: 0x40 :: List.replicate 4091 0) ++ [0] := by
      show 0x80 :: 0x80 :: 0x12 :: 0x40 :: List.replicate 4092 0 = _
      rw [show (4092:Nat) = 4091 + 1 from rfl, List.replicate_succ']
      simp [List.cons_append, -List.reduceReplicate]
    have hrev0 : c4bad.reverse[0]? = some 0x00 := by
      rw [← List.head?_eq_getElem?, List.head?_reverse, hsplit, List.getLast?_concat]
    simp [parse, hrev0, Endian.from_u8, -List.reduceReplicate]

/-- C4 (amended): the round trip holds once the image really carries the
byte patterns the classifier keys on: for every native image `N` with
first byte `0x80`, second byte `0x37`, last byte `0x40`, even length at
least 4096, parsing the pairwise byte swap of `N` and parsing the full
reversal of `N` each equal parsing `N` itself (hence all header fields
agree), and `parse` accepts `N`. -/
theorem c4_amended_roundtrip (N S : List Nat)
    (h0 : N[0]? = some 0x80) (h1 : N[1]? = some 0x37)
    (hlast : N.getLast? = some 0x40)
    (hsw : swapPairs N = some S)
    (hlen : HEADER_SIZE ≤ N.length) :
    parse N = ParseOutcome.ok ⟨⟨N.take HEADER_SIZE⟩, N.drop HEADER_SIZE⟩ ∧
    parse S = parse N ∧ parse N.reverse = parse N := by
  have hN := parse_native N h0 hlen
  refine ⟨hN, ?_, ?_⟩
  · have hS0 : S[0]? = some 0x37 := by
      cases N with
      | nil => simp at h0
      | cons a t =>
        cases t with
        | nil => simp [swapPairs] at hsw
        | cons b t2 =>
          simp only [swapPairs, Option.map_eq_some'] at hsw
          obtain ⟨r, hr, hS⟩ := hsw
          subst hS
          simp only [List.getElem?_cons_succ, List.getElem?_cons_zero] at h1
          simp [h1]
    have hswS : swapPairs S = some N := swapPairs_involutive N S hsw
    have hlenS : HEADER_SIZE ≤ S.length := by
      rw [swapPairs_length N S hsw]
      exact hlen
    rw [parse_byteswapped S N hS0 hswS hlenS, hN]
  · have hr0 : N.reverse[0]? = some 0x40 := by
      rw [← List.head?_eq_getElem?, List.head?_reverse]
      exact hlast
    have hlenR : HEADER_SIZE ≤ N.reverse.length := by simpa using hlen
    rw [parse_little N.reverse hr0 hlenR, List.reverse_reverse, hN]

/-- Witness input for C4 (amended): native magic byte, `0x37` second,
4094 copies of `0x40` after, so the last byte is `0x40` and the length
4096 is even. -/
def c4N : List Nat := 0x80 :: 0x37 :: List.replicate 4094 0x40

/-- The pairwise byte swap of `c4N`. -/
def c4S : List Nat := 0x37 :: 0x80 :: List.replicate 4094 0x40

/-- Witness for C4 (amended) at `c4N`. -/
theorem c4_amended_witness :
    parse c4S = parse c4N ∧ parse c4N.reverse = parse c4N ∧
    parse c4N = ParseOutcome.ok ⟨⟨c4N.take HEADER_SIZE⟩, c4N.drop HEADER_SIZE⟩ := by
  have key : swapPairs (List.replicate 4094 (0x40:Nat)) = some (List.replicate 4094 0x40) := by
    have h := swapPairs_replicate 2047 (0x40:Nat)
    rw [show (2 * 2047 : Nat) = 4094 from rfl] at h
    exact h
  have hlast : c4N.getLast? = some 0x40 := by
    have hsplit : c4N = (0x80 :: 0x37 :: List.replicate 4093 0x40) ++ [0x40] := by
      show 0x80 :: 0x37 :: List.replicate 4094 0x40 = _
      rw [show (4094:Nat) = 4093 + 1 from rfl, List.replicate_succ']
      simp [List.cons_append, -List.reduceReplicate]
    rw [hsplit, List.getLast?_concat]
  have hsw : swapPairs c4N = some c4S := by
    show swapPairs (0x80 :: 0x37 :: List.replicate 4094 0x40) =
      some (0x37 :: 0x80 :: List.replicate 4094 0x40)
    rw [swapPairs_cons_cons, key]
    rfl
  have hlen : HEADER_SIZE ≤ c4N.length := by
    show HEADER_SIZE ≤ (0x80 :: 0x37 :: List.replicate 4094 0x40).length
    simp only [List.length_cons, List.length_replicate]
    decide
  have h := c4_amended_roundtrip c4N c4S (by simp [c4N, -List.reduceReplicate])
    (by simp [c4N, -List.reduceReplicate]) hlast hsw hlen
  exact ⟨h.2.1, h.2.2, h.1⟩

end Oxide64
